import Mathlib

/-!
Shallow embedding of smp_sys/systems.py (classes SMPSys, PointmassSys,
SimplearmSys, and the pure functions forward / joint_positions), with
theorems settling the specification claims about it.

Modelling conventions:
* numpy column vectors of shape (n, 1) are `List ℚ` (point-mass dynamics,
  pure field arithmetic) or `List ℝ` (arm / forward kinematics, which use
  cos, sin and π);
* calls to `np.random.randn` are modelled by explicit noise-draw
  parameters, one per call site, in the order the Python code draws them;
* Python exceptions are `Except ErrKind`; step functions return the
  post-call object state together with the result, so that mutation
  committed before a failure is observable;
* numpy basic slices of `self.x` are views: the returned sensor channels
  of `PointmassSys` are slice descriptors (`ChanRef`) read against the
  live state, mirroring `return self.x[...]` / `return self.x`.
-/

namespace SmpSys

/-- Error kinds of the spec (§7): ShapeMismatch for failed reshapes,
DimensionMismatch for the `ValueError` of `joint_positions`,
UnsupportedUnit for its `NotImplementedError`, IndexError for `x[-1]` on
an empty array, ConfigurationMissing for an `AttributeError` on a field
absent after configuration resolution. -/
inductive ErrKind where
  | ShapeMismatch
  | DimensionMismatch
  | UnsupportedUnit
  | IndexError
  | ConfigurationMissing
deriving DecidableEq

/-- np.clip of a scalar: `np.clip(v, lo, hi) = min(max(v, lo), hi)`. -/
def clip {α : Type} [LinearOrder α] (v lo hi : α) : α := min (max v lo) hi

/-! ## Point-mass system (`PointmassSys`), over ℚ -/

/-- Configuration fields of `PointmassSys` that its numerical routines read. -/
structure PmConf where
  sysdim : ℕ
  dt : ℚ
  mass : ℚ
  friction : ℚ
  sysnoise : ℚ
  force_min : ℚ
  force_max : ℚ
deriving DecidableEq

/-- Mutable object state of `PointmassSys`: the state column vector
`self.x` (length `statedim = 3 * sysdim`: position, velocity,
acceleration blocks) and the step counter `self.cnt`. -/
structure PmState where
  x : List ℚ
  cnt : ℕ
deriving DecidableEq

/-- PointmassSys.bound_motor: `np.clip(m, self.force_min, self.force_max)`. -/
def bound_motor (c : PmConf) (m : List ℚ) : List ℚ :=
  m.map (fun mi => clip mi c.force_min c.force_max)

/-- Slice `self.x[:self.sysdim]` (position block). -/
def pm_pos (c : PmConf) (x : List ℚ) : List ℚ := x.take c.sysdim

/-- Slice `self.x[self.sysdim:self.sysdim*2]` (velocity block). -/
def pm_vel (c : PmConf) (x : List ℚ) : List ℚ := (x.drop c.sysdim).take c.sysdim

/-- Slice `self.x[self.sysdim*2:]` (acceleration block). -/
def pm_acc (c : PmConf) (x : List ℚ) : List ℚ := x.drop (2 * c.sysdim)

/-- Line 130 of apply_force: `a = (u/self.mass).reshape((self.sysdim, 1))`. -/
def pm_a (c : PmConf) (u : List ℚ) : List ℚ := u.map (fun ui => ui / c.mass)

/-- Line 141 of apply_force:
`v = self.x[self.sysdim:self.sysdim*2] * (1 - self.friction) + a * self.dt`. -/
def pm_v (c : PmConf) (u x : List ℚ) : List ℚ :=
  List.zipWith (fun vi ai => vi * (1 - c.friction) + ai * c.dt) (pm_vel c x) (pm_a c u)

/-- Line 150 of apply_force: `p = self.x[:self.sysdim] + v * self.dt`. -/
def pm_p (c : PmConf) (u x : List ℚ) : List ℚ :=
  List.zipWith (fun pi vi => pi + vi * c.dt) (pm_pos c x) (pm_v c u x)

/-- PointmassSys.apply_force.  `(u/self.mass).reshape((self.sysdim, 1))`
fails (ShapeMismatch) unless `u` has exactly `sysdim` elements, and the
reshape precedes every state write, so the failing case returns the state
untouched.  Otherwise: `a = u/mass`;
`v = self.x[sysdim:2*sysdim] * (1 - friction) + a * dt`;
`p = self.x[:sysdim] + v * dt`; the three blocks of `self.x` are assigned
`p, v, a`; then `self.x += sysnoise * randn(statedim, 1)` adds scaled
noise to every element (the draw is the `noise` parameter), and
`self.cnt += 1`. -/
def apply_force (c : PmConf) (u noise : List ℚ) (s : PmState) :
    PmState × Except ErrKind Unit :=
  if u.length = c.sysdim then
    let x1 := pm_p c u s.x ++ pm_v c u s.x ++ pm_a c u
    let x2 := List.zipWith (fun xi ni => xi + c.sysnoise * ni) x1 noise
    (⟨x2, s.cnt + 1⟩, .ok ())
  else (s, .error .ShapeMismatch)

/-- A numpy basic-slice view `x[start:stop]` (stop `none` means to the
end); `⟨0, none⟩` is the whole array `self.x` itself. -/
structure ChanRef where
  start : ℕ
  stop : Option ℕ
deriving DecidableEq

/-- Dereference a slice view against the live object state. -/
def readChan (s : PmState) (r : ChanRef) : List ℚ :=
  match r.stop with
  | none => s.x.drop r.start
  | some t => (s.x.take t).drop r.start

/-- The three channels returned by `PointmassSys.step`, as views:
`s_proprio = self.x[sysdim*2:]`, `s_extero = self.x[sysdim:sysdim*2]`,
`s_all = self.x`. -/
structure PmChannels where
  s_proprio : ChanRef
  s_extero : ChanRef
  s_all : ChanRef
deriving DecidableEq

/-- PointmassSys.step: calls `apply_force(x)` then returns the dict of the
three sensor views computed by `compute_sensors_proprio`,
`compute_sensors_extero`, `compute_sensors`. -/
def pm_step (c : PmConf) (u noise : List ℚ) (s : PmState) :
    PmState × Except ErrKind PmChannels :=
  match apply_force c u noise s with
  | (s1, .ok _) =>
      (s1, .ok ⟨⟨2 * c.sysdim, none⟩, ⟨c.sysdim, some (2 * c.sysdim)⟩, ⟨0, none⟩⟩)
  | (s1, .error e) => (s1, .error e)

/-- Iterated stepping with a constant force input and all-zero noise
draws (the `sysnoise = 0` regime of the trajectory claims). -/
def pm_run (c : PmConf) (u : List ℚ) : ℕ → PmState → PmState
  | 0, s => s
  | n + 1, s => (apply_force c u (List.replicate (3 * c.sysdim) 0) (pm_run c u n s)).1

/-! ## Configuration resolution (`SMPSys.__init__` / `PointmassSys.__init__`) -/

/-- Attribute values stored on a system instance: Python scalars and
numpy arrays as they occur in the configuration dictionaries. -/
inductive Val where
  | num : ℚ → Val
  | natv : ℕ → Val
  | arr : List ℚ → Val
deriving DecidableEq

/-- The `for k, v in conf.items(): setattr(self, k, v)` loop of
`SMPSys.__init__`, starting from the attribute map `init` (later entries
overwrite earlier ones, as repeated `setattr` would). -/
def setattr_all (init : String → Option Val) (conf : List (String × Val)) :
    String → Option Val :=
  conf.foldl (fun a kv => Function.update a kv.1 (some kv.2)) init

/-- SMPSys.__init__ on a fresh instance (no attributes set): it assigns
exactly the keys of `conf` as instance fields and consults no defaults
mapping.  (The ROS branch is out of scope per spec §1.) -/
def smpsys_init (conf : List (String × Val)) : String → Option Val :=
  setattr_all (fun _ => none) conf

/-- PointmassSys.__init__: runs `SMPSys.__init__(conf)`, then
`if not hasattr(self, 'x0'): self.x0 = np.zeros((self.statedim, 1))`
(reading `self.statedim` fails with an AttributeError — here
ConfigurationMissing — when `statedim` was not set by `conf`), then
`self.x = self.x0.copy()` and `self.cnt = 0`. -/
def pointmass_init (conf : List (String × Val)) :
    Except ErrKind (String → Option Val) := do
  let a := smpsys_init conf
  let a1 ← match a "x0" with
    | some _ => Except.ok a
    | none =>
      match a "statedim" with
      | some (.natv n) =>
        Except.ok (Function.update a "x0" (some (.arr (List.replicate n 0))))
      | _ => Except.error .ConfigurationMissing
  let a2 := Function.update a1 "x" (a1 "x0")
  return Function.update a2 "cnt" (some (.natv 0))

/-- The class-level `PointmassSys.defaults` dictionary.  Its `x0` entry
is a fresh `np.random.uniform` draw made when the class body runs; the
draw is the parameter `x0`. -/
def PM_defaults (x0 : List ℚ) : List (String × Val) :=
  [("sysdim", .natv 1), ("x0", .arr x0), ("statedim", .natv 3),
   ("dt", .num (1/10)), ("mass", .num 1), ("force_max", .num 1),
   ("force_min", .num (-1)), ("friction", .num (1/1000)),
   ("sysnoise", .num (1/100))]

/-- Projection of a successful construction result (attribute map of the
built instance); an errored construction yields the empty map. -/
def attrsOf (r : Except ErrKind (String → Option Val)) : String → Option Val :=
  match r with
  | .ok a => a
  | .error _ => fun _ => none

/-! ## Forward kinematics (`forward` / `joint_positions`), over ℝ -/

/-- np.cumsum on a 1-d array: the list of partial sums. -/
def cumsum : List ℝ → List ℝ
  | [] => []
  | a :: t => a :: (cumsum t).map (fun s => a + s)

/-- Common tail of `joint_positions` after the angle-unit conversion:
`a = np.cumsum(a); return np.cumsum(np.cos(a)*lengths),
np.cumsum(np.sin(a)*lengths)`. -/
noncomputable def jp_core (a lengths : List ℝ) : List ℝ × List ℝ :=
  let ca := cumsum a
  (cumsum (List.zipWith (fun t l => Real.cos t * l) ca lengths),
   cumsum (List.zipWith (fun t l => Real.sin t * l) ca lengths))

/-- joint_positions(angles, lengths, unit): raises ValueError
(DimensionMismatch) when the two lists differ in length; unit `rad` uses
the angles as-is, unit `std` multiplies every angle by π, any other unit
raises NotImplementedError (UnsupportedUnit). -/
noncomputable def joint_positions (angles lengths : List ℝ) (unit : String) :
    Except ErrKind (List ℝ × List ℝ) :=
  if angles.length ≠ lengths.length then .error .DimensionMismatch
  else if unit = "rad" then .ok (jp_core angles lengths)
  else if unit = "std" then
    .ok (jp_core (angles.map (fun t => Real.pi * t)) lengths)
  else .error .UnsupportedUnit

/-- forward(angles, lengths): `x, y = joint_positions(angles, lengths)`
(default unit `rad`) and `return x[-1], y[-1]`, where indexing `[-1]`
into an empty array raises IndexError. -/
noncomputable def forward (angles lengths : List ℝ) : Except ErrKind (ℝ × ℝ) :=
  match joint_positions angles lengths "rad" with
  | .error e => .error e
  | .ok (xs, ys) =>
    match xs.getLast?, ys.getLast? with
    | some xe, some ye => .ok (xe, ye)
    | _, _ => .error .IndexError

/-- Projection of a successful `joint_positions ... "rad"` result. -/
noncomputable def jpGet (angles lengths : List ℝ) : List ℝ × List ℝ :=
  match joint_positions angles lengths "rad" with
  | .ok p => p
  | .error _ => ([], [])

/-- Projection of a successful `forward` result (end-effector pair). -/
noncomputable def fwdGet (angles lengths : List ℝ) : ℝ × ℝ :=
  match forward angles lengths with
  | .ok p => p
  | .error _ => (0, 0)

/-! ## Simple arm (`SimplearmSys`), over ℝ -/

/-- Configuration fields of `SimplearmSys` read by its routines, plus
`factor`, which `__init__` unconditionally sets to `1.0` after the
configuration loop (so it is 1 on every constructed instance; theorems
are stated for an arbitrary value). -/
structure ArmConf where
  dim_s_motor : ℕ
  dim_s_extero : ℕ
  length_ratio : ℝ
  m_mins : ℝ
  m_maxs : ℝ
  sysnoise : ℝ
  factor : ℝ

/-- Mutable object state of `SimplearmSys` relevant to stepping: the
stored motor command `self.m`.  (`self.x`/`self.cnt` exist but `step`
never touches them.) -/
structure ArmState where
  m : List ℝ

/-- The loop of compute_lengths: `l[0] = 1`, `l[i] = l[i-1] / ratio`. -/
noncomputable def lrec (ratio : ℝ) : ℕ → ℝ
  | 0 => 1
  | n + 1 => lrec ratio n / ratio

/-- SimplearmSys.compute_lengths(n_dofs, ratio): the geometric profile
`l` normalized by its sum (`l / sum(l)`). -/
noncomputable def compute_lengths (n_dofs : ℕ) (ratio : ℝ) : List ℝ :=
  let l := (List.range n_dofs).map (lrec ratio)
  l.map (fun li => li / l.sum)

/-- The construction-time-fixed `self.lengths =
self.compute_lengths(self.dim_s_motor, self.length_ratio)`. -/
noncomputable def armLengths (c : ArmConf) : List ℝ :=
  compute_lengths c.dim_s_motor c.length_ratio

/-- SimplearmSys.compute_motor_command(m): `m *= self.factor;
return np.clip(m, self.m_mins, self.m_maxs)`. -/
noncomputable def compute_motor_command (c : ArmConf) (m : List ℝ) : List ℝ :=
  (m.map (fun mi => mi * c.factor)).map (fun mi => clip mi c.m_mins c.m_maxs)

/-- SimplearmSys.compute_sensors_proprio:
`self.m + self.sysnoise * np.random.randn(*self.m.shape)` (the draw is
the `noise` parameter). -/
noncomputable def arm_compute_sensors_proprio (c : ArmConf) (m noise : List ℝ) :
    List ℝ :=
  List.zipWith (fun mi ni => mi + c.sysnoise * ni) m noise

/-- SimplearmSys.compute_sensors_extero:
`hand_pos = np.array(forward(self.m, self.lengths)).reshape((self.dim_s_extero, 1))`
(the reshape of the 2-element result fails unless `dim_s_extero = 2`),
then `hand_pos += self.sysnoise * np.random.randn(*hand_pos.shape)`. -/
noncomputable def arm_compute_sensors_extero (c : ArmConf) (m noise : List ℝ) :
    Except ErrKind (List ℝ) :=
  match forward m (armLengths c) with
  | .error e => .error e
  | .ok q =>
    if c.dim_s_extero = 2 then
      .ok (List.zipWith (fun hi ni => hi + c.sysnoise * ni) [q.1, q.2] noise)
    else .error .ShapeMismatch

/-- SimplearmSys.compute_sensors:
`np.vstack((self.compute_sensors_proprio(), self.compute_sensors_extero()))`;
both callees draw their own fresh noise (`pnoise`, then `enoise`). -/
noncomputable def arm_compute_sensors (c : ArmConf) (m pnoise enoise : List ℝ) :
    Except ErrKind (List ℝ) :=
  let pro := arm_compute_sensors_proprio c m pnoise
  match arm_compute_sensors_extero c m enoise with
  | .error e => .error e
  | .ok ext => .ok (pro ++ ext)

/-- The dict returned by `SimplearmSys.step`. -/
structure ArmOut where
  s_proprio : List ℝ
  s_extero : List ℝ
  s_all : List ℝ

/-- SimplearmSys.step(x):
`self.m = self.compute_motor_command(x)` (committed first — the input is
an absolute target), then the returned dict is built:
`s_proprio = self.m` (no noise), `s_extero = self.compute_sensors_extero()`
(noise draw `e1`), `s_all = self.compute_sensors()` (noise draws `p2`
then `e2`).  A failure inside the sensor computations happens after the
assignment to `self.m`, so the post-call state carries the new command
either way. -/
noncomputable def simplearm_step (c : ArmConf) (x e1 p2 e2 : List ℝ)
    (_s : ArmState) : ArmState × Except ErrKind ArmOut :=
  let m1 := compute_motor_command c x
  let s1 : ArmState := ⟨m1⟩
  match arm_compute_sensors_extero c m1 e1 with
  | .error e => (s1, .error e)
  | .ok ext =>
    match arm_compute_sensors c m1 p2 e2 with
    | .error e => (s1, .error e)
    | .ok allv => (s1, .ok ⟨m1, ext, allv⟩)

/-- Projection of a successful step result. -/
noncomputable def getOut (r : Except ErrKind ArmOut) : ArmOut :=
  match r with
  | .ok o => o
  | .error _ => ⟨[], [], []⟩

/-- A sequence of `SimplearmSys.step` calls: each entry of `steps` is the
input together with the three noise draws of that call; the result is
the final object state. -/
noncomputable def arm_iter (c : ArmConf) (s0 : ArmState)
    (steps : List (List ℝ × List ℝ × List ℝ × List ℝ)) : ArmState :=
  steps.foldl (fun s q => (simplearm_step c q.1 q.2.1 q.2.2.1 q.2.2.2 s).1) s0

/-! ## Generic list-indexing helpers -/

lemma getD_zipWith {α : Type} (f : α → α → α) (d : α) (a b : List α) (i : ℕ)
    (ha : i < a.length) (hb : i < b.length) :
    (List.zipWith f a b).getD i d = f (a.getD i d) (b.getD i d) := by
  rw [List.getD_eq_getElem _ _ (by rw [List.length_zipWith]; omega),
    List.getD_eq_getElem a _ ha, List.getD_eq_getElem b _ hb, List.getElem_zipWith]

lemma getD_map {α β : Type} (f : α → β) (da : α) (db : β) (l : List α) (i : ℕ)
    (hi : i < l.length) :
    (l.map f).getD i db = f (l.getD i da) := by
  rw [List.getD_eq_getElem _ _ (by rw [List.length_map]; omega),
    List.getD_eq_getElem l _ hi, List.getElem_map]

lemma getD_append_left {α : Type} (d : α) (a b : List α) (i : ℕ) (h : i < a.length) :
    (a ++ b).getD i d = a.getD i d := by
  rw [List.getD_eq_getElem _ _ (by rw [List.length_append]; omega),
    List.getD_eq_getElem a _ h, List.getElem_append_left]

lemma getD_append_right {α : Type} (d : α) (a b : List α) (i : ℕ)
    (h : a.length ≤ i) (h2 : i - a.length < b.length) :
    (a ++ b).getD i d = b.getD (i - a.length) d := by
  rw [List.getD_eq_getElem _ _ (by rw [List.length_append]; omega),
    List.getD_eq_getElem b _ h2, List.getElem_append_right h]

lemma getD_take {α : Type} (d : α) (a : List α) (i n : ℕ) (h : i < n)
    (h2 : i < a.length) :
    (a.take n).getD i d = a.getD i d := by
  rw [List.getD_eq_getElem _ _ (by rw [List.length_take]; omega),
    List.getD_eq_getElem a _ h2, List.getElem_take]

lemma getD_drop {α : Type} (d : α) (a : List α) (i n : ℕ) (h : n + i < a.length) :
    (a.drop n).getD i d = a.getD (n + i) d := by
  rw [List.getD_eq_getElem _ _ (by rw [List.length_drop]; omega),
    List.getD_eq_getElem a _ h, List.getElem_drop]

lemma getD_replicate {α : Type} (d v : α) (i n : ℕ) (h : i < n) :
    (List.replicate n v).getD i d = v := by
  rw [List.getD_eq_getElem _ _ (by rw [List.length_replicate]; omega),
    List.getElem_replicate]

/-! ## Pointwise description of `apply_force` -/

section ApplyForce

variable (c : PmConf) (u noise x : List ℚ) (s : PmState)

lemma pm_a_len : (pm_a c u).length = u.length := by simp [pm_a]

lemma pm_a_getD (i : ℕ) (hi : i < u.length) :
    (pm_a c u).getD i 0 = u.getD i 0 / c.mass :=
  getD_map _ 0 0 u i hi

lemma pm_pos_getD (hx : x.length = 3 * c.sysdim) (i : ℕ) (hi : i < c.sysdim) :
    (pm_pos c x).getD i 0 = x.getD i 0 :=
  getD_take _ x i c.sysdim hi (by omega)

lemma pm_vel_getD (hx : x.length = 3 * c.sysdim) (i : ℕ) (hi : i < c.sysdim) :
    (pm_vel c x).getD i 0 = x.getD (c.sysdim + i) 0 := by
  unfold pm_vel
  rw [getD_take _ _ i c.sysdim hi (by simp [hx]; omega),
    getD_drop _ x i c.sysdim (by omega)]

lemma pm_v_len (hu : u.length = c.sysdim) (hx : x.length = 3 * c.sysdim) :
    (pm_v c u x).length = c.sysdim := by
  simp [pm_v, pm_vel, pm_a, hu, hx]; omega

lemma pm_v_getD (hu : u.length = c.sysdim) (hx : x.length = 3 * c.sysdim)
    (i : ℕ) (hi : i < c.sysdim) :
    (pm_v c u x).getD i 0 =
      x.getD (c.sysdim + i) 0 * (1 - c.friction) + u.getD i 0 / c.mass * c.dt := by
  unfold pm_v
  rw [getD_zipWith _ _ _ _ _ (by simp [pm_vel, hx]; omega) (by simp [pm_a, hu]; omega),
    pm_vel_getD c x hx i hi, pm_a_getD c u i (by omega)]

lemma pm_p_len (hu : u.length = c.sysdim) (hx : x.length = 3 * c.sysdim) :
    (pm_p c u x).length = c.sysdim := by
  simp [pm_p, pm_pos, hx, pm_v_len c u x hu hx]; omega

lemma pm_p_getD (hu : u.length = c.sysdim) (hx : x.length = 3 * c.sysdim)
    (i : ℕ) (hi : i < c.sysdim) :
    (pm_p c u x).getD i 0 =
      x.getD i 0 +
        (x.getD (c.sysdim + i) 0 * (1 - c.friction) + u.getD i 0 / c.mass * c.dt) *
          c.dt := by
  unfold pm_p
  rw [getD_zipWith _ _ _ _ _ (by simp [pm_pos, hx]; omega)
      (by rw [pm_v_len c u x hu hx]; omega),
    pm_pos_getD c x hx i hi, pm_v_getD c u x hu hx i hi]

lemma apply_force_ok (hu : u.length = c.sysdim) :
    (apply_force c u noise s).2 = .ok () := by
  simp [apply_force, hu]

lemma apply_force_err (hu : u.length ≠ c.sysdim) :
    apply_force c u noise s = (s, .error .ShapeMismatch) := by
  simp [apply_force, hu]

lemma apply_force_cnt (hu : u.length = c.sysdim) :
    (apply_force c u noise s).1.cnt = s.cnt + 1 := by
  simp [apply_force, hu]

lemma apply_force_x (hu : u.length = c.sysdim) :
    (apply_force c u noise s).1.x =
      List.zipWith (fun xi ni => xi + c.sysnoise * ni)
        (pm_p c u s.x ++ pm_v c u s.x ++ pm_a c u) noise := by
  simp [apply_force, hu]

lemma apply_force_len (hu : u.length = c.sysdim) (hx : s.x.length = 3 * c.sysdim)
    (hn : noise.length = 3 * c.sysdim) :
    (apply_force c u noise s).1.x.length = 3 * c.sysdim := by
  rw [apply_force_x c u noise s hu]
  simp [pm_p_len c u s.x hu hx, pm_v_len c u s.x hu hx, pm_a_len, hu, hn]
  omega

lemma apply_force_acc (hu : u.length = c.sysdim) (hx : s.x.length = 3 * c.sysdim)
    (hn : noise.length = 3 * c.sysdim) (i : ℕ) (hi : i < c.sysdim) :
    (apply_force c u noise s).1.x.getD (2 * c.sysdim + i) 0 =
      u.getD i 0 / c.mass + c.sysnoise * noise.getD (2 * c.sysdim + i) 0 := by
  have hp := pm_p_len c u s.x hu hx
  have hv := pm_v_len c u s.x hu hx
  have hpv : (pm_p c u s.x ++ pm_v c u s.x).length = 2 * c.sysdim := by
    simp [hp, hv]; omega
  rw [apply_force_x c u noise s hu,
    getD_zipWith _ _ _ _ _ (by simp [hp, hv, pm_a_len, hu]; omega) (by omega),
    getD_append_right _ _ _ _ (by omega) (by simp [hpv, pm_a_len, hu]; omega),
    hpv]
  have hidx : 2 * c.sysdim + i - 2 * c.sysdim = i := by omega
  rw [hidx, pm_a_getD c u i (by omega)]

lemma apply_force_vel (hu : u.length = c.sysdim) (hx : s.x.length = 3 * c.sysdim)
    (hn : noise.length = 3 * c.sysdim) (i : ℕ) (hi : i < c.sysdim) :
    (apply_force c u noise s).1.x.getD (c.sysdim + i) 0 =
      s.x.getD (c.sysdim + i) 0 * (1 - c.friction) + u.getD i 0 / c.mass * c.dt +
        c.sysnoise * noise.getD (c.sysdim + i) 0 := by
  have hp := pm_p_len c u s.x hu hx
  have hv := pm_v_len c u s.x hu hx
  rw [apply_force_x c u noise s hu,
    getD_zipWith _ _ _ _ _ (by simp [hp, hv, pm_a_len, hu]; omega) (by omega),
    getD_append_left _ _ _ _ (by simp [hp, hv]; omega),
    getD_append_right _ _ _ _ (by omega) (by rw [hp, hv]; omega), hp]
  have hidx : c.sysdim + i - c.sysdim = i := by omega
  rw [hidx, pm_v_getD c u s.x hu hx i hi]

lemma apply_force_pos (hu : u.length = c.sysdim) (hx : s.x.length = 3 * c.sysdim)
    (hn : noise.length = 3 * c.sysdim) (i : ℕ) (hi : i < c.sysdim) :
    (apply_force c u noise s).1.x.getD i 0 =
      s.x.getD i 0 +
        (s.x.getD (c.sysdim + i) 0 * (1 - c.friction) + u.getD i 0 / c.mass * c.dt) *
          c.dt +
        c.sysnoise * noise.getD i 0 := by
  have hp := pm_p_len c u s.x hu hx
  have hv := pm_v_len c u s.x hu hx
  rw [apply_force_x c u noise s hu,
    getD_zipWith _ _ _ _ _ (by simp [hp, hv, pm_a_len, hu]; omega) (by omega),
    getD_append_left _ _ _ _ (by simp [hp, hv]; omega),
    getD_append_left _ _ _ _ (by omega),
    pm_p_getD c u s.x hu hx i hi]

end ApplyForce

lemma bound_motor_getD (c : PmConf) (u : List ℚ) (i : ℕ) (hi : i < u.length) :
    (bound_motor c u).getD i 0 = clip (u.getD i 0) c.force_min c.force_max :=
  getD_map _ 0 0 u i hi

/-! ## Claim theorems: point-mass step semantics -/

/-- C1: for the point-mass model, `apply_force u` with `u` of size
`sysdim` computes `a = u/mass`, `v = v_prev * (1 - friction) + a * dt`
from the previous velocity block, `p = p_prev + v * dt`, writes `(p, v, a)`
into the position / velocity / acceleration partitions, adds
`sysnoise`-scaled noise to every element of the full state vector
(acceleration block included), increments the step counter by exactly
one, and applies no clamping of `u` into `[force_min, force_max]`: the
acceleration written comes from `u` itself and (for an out-of-range
input and positive mass) differs from what the clamped command
`bound_motor u` would give. -/
theorem C1_apply_force_semantics (c : PmConf) (u noise : List ℚ) (s : PmState)
    (hu : u.length = c.sysdim) (hx : s.x.length = 3 * c.sysdim)
    (hn : noise.length = 3 * c.sysdim) (hm : 0 < c.mass)
    (hb : c.force_min ≤ c.force_max) :
    (apply_force c u noise s).2 = .ok () ∧
    (apply_force c u noise s).1.cnt = s.cnt + 1 ∧
    (apply_force c u noise s).1.x.length = 3 * c.sysdim ∧
    (∀ i, i < c.sysdim →
      (apply_force c u noise s).1.x.getD (2 * c.sysdim + i) 0 =
        u.getD i 0 / c.mass + c.sysnoise * noise.getD (2 * c.sysdim + i) 0) ∧
    (∀ i, i < c.sysdim →
      (apply_force c u noise s).1.x.getD (c.sysdim + i) 0 =
        s.x.getD (c.sysdim + i) 0 * (1 - c.friction) + u.getD i 0 / c.mass * c.dt +
          c.sysnoise * noise.getD (c.sysdim + i) 0) ∧
    (∀ i, i < c.sysdim →
      (apply_force c u noise s).1.x.getD i 0 =
        s.x.getD i 0 +
          (s.x.getD (c.sysdim + i) 0 * (1 - c.friction) +
            u.getD i 0 / c.mass * c.dt) * c.dt +
          c.sysnoise * noise.getD i 0) ∧
    (∀ i, i < c.sysdim → c.force_max < u.getD i 0 →
      u.getD i 0 / c.mass ≠ (bound_motor c u).getD i 0 / c.mass) := by
  refine ⟨apply_force_ok c u noise s hu, apply_force_cnt c u noise s hu,
    apply_force_len c u noise s hu hx hn,
    fun i hi => apply_force_acc c u noise s hu hx hn i hi,
    fun i hi => apply_force_vel c u noise s hu hx hn i hi,
    fun i hi => apply_force_pos c u noise s hu hx hn i hi,
    fun i hi hout => ?_⟩
  rw [bound_motor_getD c u i (by omega)]
  unfold clip
  rw [max_eq_left (le_trans hb (le_of_lt hout)), min_eq_right (le_of_lt hout)]
  intro h
  have h2 := congrArg (fun z => z * c.mass) h
  simp only [div_mul_cancel₀ _ (ne_of_gt hm)] at h2
  exact absurd h2 (ne_of_gt hout)

/-- C1 witness: instantiation at a concrete one-dimensional configuration
with an out-of-range force input. -/
theorem C1_apply_force_semantics_witness :
    (apply_force ⟨1, 1, 1, 0, 0, -1, 1⟩ [2] [0, 0, 0] ⟨[0, 0, 0], 0⟩).2 = .ok () ∧
    (apply_force ⟨1, 1, 1, 0, 0, -1, 1⟩ [2] [0, 0, 0] ⟨[0, 0, 0], 0⟩).1.cnt = 0 + 1 ∧
    (apply_force ⟨1, 1, 1, 0, 0, -1, 1⟩ [2] [0, 0, 0] ⟨[0, 0, 0], 0⟩).1.x.getD
        (2 * 1 + 0) 0 =
      [(2 : ℚ)].getD 0 0 / 1 + 0 * [(0 : ℚ), 0, 0].getD (2 * 1 + 0) 0 ∧
    [(2 : ℚ)].getD 0 0 / 1 ≠
      (bound_motor ⟨1, 1, 1, 0, 0, -1, 1⟩ [2]).getD 0 0 / 1 := by
  have h := C1_apply_force_semantics ⟨1, 1, 1, 0, 0, -1, 1⟩ [2] [0, 0, 0]
    ⟨[0, 0, 0], 0⟩ (by decide) (by decide) (by decide) (by decide) (by decide)
  exact ⟨h.1, h.2.1, h.2.2.2.1 0 (by decide), h.2.2.2.2.2.2 0 (by decide) (by decide)⟩

/-- Closed form of the noise-free, friction-free constant-force
trajectory from the zero state (inductive invariant). -/
lemma pm_run_closed_form (c : PmConf) (u : List ℚ) (hu : u.length = c.sysdim)
    (hf : c.friction = 0) (hs : c.sysnoise = 0) (n : ℕ) :
    (pm_run c u n ⟨List.replicate (3 * c.sysdim) 0, 0⟩).x.length = 3 * c.sysdim ∧
    (∀ i, i < c.sysdim →
      (pm_run c u n ⟨List.replicate (3 * c.sysdim) 0, 0⟩).x.getD (c.sysdim + i) 0 =
        n * (u.getD i 0 / c.mass) * c.dt) ∧
    (∀ i, i < c.sysdim →
      (pm_run c u n ⟨List.replicate (3 * c.sysdim) 0, 0⟩).x.getD i 0 =
        u.getD i 0 / c.mass * c.dt ^ 2 * ∑ k in Finset.range (n + 1), (k : ℚ)) := by
  induction n with
  | zero =>
    refine ⟨by simp [pm_run], fun i hi => ?_, fun i hi => ?_⟩
    · rw [show pm_run c u 0 ⟨List.replicate (3 * c.sysdim) 0, 0⟩ =
        ⟨List.replicate (3 * c.sysdim) 0, 0⟩ from rfl]
      rw [getD_replicate _ _ _ _ (by omega)]
      simp
    · rw [show pm_run c u 0 ⟨List.replicate (3 * c.sysdim) 0, 0⟩ =
        ⟨List.replicate (3 * c.sysdim) 0, 0⟩ from rfl]
      rw [getD_replicate _ _ _ _ (by omega)]
      simp
  | succ n ih =>
    obtain ⟨ihlen, ihvel, ihpos⟩ := ih
    have hn0 : (List.replicate (3 * c.sysdim) (0 : ℚ)).length = 3 * c.sysdim := by
      simp
    have hstep : pm_run c u (n + 1) ⟨List.replicate (3 * c.sysdim) 0, 0⟩ =
        (apply_force c u (List.replicate (3 * c.sysdim) 0)
          (pm_run c u n ⟨List.replicate (3 * c.sysdim) 0, 0⟩)).1 := rfl
    refine ⟨?_, fun i hi => ?_, fun i hi => ?_⟩
    · rw [hstep]
      exact apply_force_len c u _ _ hu ihlen hn0
    · rw [hstep, apply_force_vel c u _ _ hu ihlen hn0 i hi, ihvel i hi, hf, hs]
      push_cast
      ring
    · rw [hstep, apply_force_pos c u _ _ hu ihlen hn0 i hi, ihpos i hi, ihvel i hi,
        hf, hs,
        show ∑ k in Finset.range (n + 1 + 1), (k : ℚ) =
            (∑ k in Finset.range (n + 1), (k : ℚ)) + ((n : ℚ) + 1) from by
          rw [Finset.sum_range_succ]; push_cast; ring]
      ring

/-- C3: for the point-mass model with `sysnoise = 0` and `friction = 0`,
starting from the zero state and stepping `n` times with the same
constant force input `u` of size `sysdim`, after `n` steps the velocity
block equals `n * (u/mass) * dt` elementwise and the position block
equals `(u/mass) * dt^2 * (0 + 1 + 2 + ... + n)` elementwise, for every
`n` (hence in particular for n = 1, 10, 100). -/
theorem C3_constant_force_closed_form (c : PmConf) (u : List ℚ)
    (hu : u.length = c.sysdim) (hf : c.friction = 0) (hs : c.sysnoise = 0) (n : ℕ) :
    (∀ i, i < c.sysdim →
      (pm_run c u n ⟨List.replicate (3 * c.sysdim) 0, 0⟩).x.getD (c.sysdim + i) 0 =
        n * (u.getD i 0 / c.mass) * c.dt) ∧
    (∀ i, i < c.sysdim →
      (pm_run c u n ⟨List.replicate (3 * c.sysdim) 0, 0⟩).x.getD i 0 =
        u.getD i 0 / c.mass * c.dt ^ 2 * ∑ k in Finset.range (n + 1), (k : ℚ)) :=
  ⟨(pm_run_closed_form c u hu hf hs n).2.1, (pm_run_closed_form c u hu hf hs n).2.2⟩

/-- C3 witness: ten steps of a unit force on a concrete one-dimensional
configuration (`dt = 1/10`, `mass = 1`), evaluated concretely: velocity
becomes 1 and position 55/100. -/
theorem C3_constant_force_closed_form_witness :
    ((pm_run ⟨1, 1/10, 1, 0, 0, -1, 1⟩ [1] 10 ⟨List.replicate (3 * 1) 0, 0⟩).x.getD
        (1 + 0) 0 =
      ((10 : ℕ) : ℚ) * ([(1 : ℚ)].getD 0 0 / 1) * (1/10)) ∧
    ((pm_run ⟨1, 1/10, 1, 0, 0, -1, 1⟩ [1] 10 ⟨List.replicate (3 * 1) 0, 0⟩).x.getD 0 0 =
      [(1 : ℚ)].getD 0 0 / 1 * (1/10) ^ 2 * ∑ k in Finset.range (10 + 1), (k : ℚ)) ∧
    (pm_run ⟨1, 1/10, 1, 0, 0, -1, 1⟩ [1] 10 ⟨List.replicate (3 * 1) 0, 0⟩).x.getD 0 0 =
      55/100 := by
  have h := C3_constant_force_closed_form ⟨1, 1/10, 1, 0, 0, -1, 1⟩ [1]
    (by decide) (by decide) (by decide) 10
  refine ⟨h.1 0 (by decide), h.2 0 (by decide), ?_⟩
  rw [h.2 0 (by decide)]
  rw [show ∑ k in Finset.range (10 + 1), (k : ℚ) = 55 by
    norm_num [Finset.sum_range_succ]]
  norm_num

/-! ## Claim theorems: configuration resolution -/

lemma setattr_all_cons (init : String → Option Val) (kv : String × Val)
    (t : List (String × Val)) :
    setattr_all init (kv :: t) = setattr_all (Function.update init kv.1 (some kv.2)) t :=
  rfl

lemma setattr_all_not_mem (conf : List (String × Val)) (init : String → Option Val)
    (k : String) (hk : k ∉ conf.map Prod.fst) :
    setattr_all init conf k = init k := by
  induction conf generalizing init with
  | nil => rfl
  | cons kv t ih =>
    simp only [List.map_cons, List.mem_cons, not_or] at hk
    rw [setattr_all_cons, ih _ hk.2]
    exact Function.update_noteq hk.1 _ init

lemma setattr_all_mem (conf : List (String × Val)) (init : String → Option Val)
    (hnd : (conf.map Prod.fst).Nodup) (k : String) (v : Val)
    (hm : (k, v) ∈ conf) :
    setattr_all init conf k = some v := by
  induction conf generalizing init with
  | nil => simp at hm
  | cons kv t ih =>
    simp only [List.map_cons, List.nodup_cons] at hnd
    rcases List.mem_cons.mp hm with heq | htl
    · have hk : kv.1 = k := by rw [← heq]
      have hv : kv.2 = v := by rw [← heq]
      rw [setattr_all_cons, setattr_all_not_mem t _ k (hk ▸ hnd.1), hk, hv]
      exact Function.update_same _ _ _
    · exact setattr_all_cons init kv t ▸ ih _ hnd.2 htl

/-- C2 counterexample: constructing `PointmassSys` with an empty
configuration does not succeed — no defaults are merged, so the
`np.zeros((self.statedim, 1))` fallback for `x0` dereferences the absent
field `statedim` and construction fails. -/
theorem C2_empty_conf_construction_fails :
    pointmass_init [] = .error .ConfigurationMissing := rfl

/-- C2 (amended): construction never merges the per-type defaults
mapping; it assigns exactly the caller-supplied keys.  A key present in
the configuration is readable with the configured value, a key absent
from it resolves to nothing (even if the defaults mapping names it), and
every field named in the defaults mapping is readable after construction
exactly when the caller passes the defaults as configuration (as the
module's demo loop does via `c(conf = c.defaults)`). -/
theorem C2_config_resolution_amended :
    (∀ (conf : List (String × Val)), (conf.map Prod.fst).Nodup →
      ∀ k v, (k, v) ∈ conf → smpsys_init conf k = some v) ∧
    (∀ (conf : List (String × Val)) (k : String), k ∉ conf.map Prod.fst →
      smpsys_init conf k = none) ∧
    (∀ (x0 : List ℚ) (k : String), k ∈ (PM_defaults x0).map Prod.fst →
      (attrsOf (pointmass_init (PM_defaults x0)) k).isSome = true) := by
  refine ⟨fun conf hnd k v hm => setattr_all_mem conf _ hnd k v hm,
    fun conf k hk => setattr_all_not_mem conf _ k hk,
    fun x0 k hk => ?_⟩
  simp only [PM_defaults, List.map_cons, List.map_nil, List.mem_cons,
    List.mem_singleton] at hk
  rcases hk with rfl | rfl | rfl | rfl | rfl | rfl | rfl | rfl | rfl | h
  · rfl
  · rfl
  · rfl
  · rfl
  · rfl
  · rfl
  · rfl
  · rfl
  · rfl
  · simp at h

/-- C2 witness: a one-key configuration sets exactly that key, and the
demo-style full-defaults configuration makes the defaults fields
readable. -/
theorem C2_config_resolution_amended_witness :
    smpsys_init [("mass", Val.num 2)] "mass" = some (Val.num 2) ∧
    smpsys_init [("mass", Val.num 2)] "dt" = none ∧
    (attrsOf (pointmass_init (PM_defaults [0, 0, 0])) "friction").isSome = true := by
  refine ⟨C2_config_resolution_amended.1 [("mass", Val.num 2)] (by simp) "mass"
      (Val.num 2) (by simp),
    C2_config_resolution_amended.2.1 [("mass", Val.num 2)] "dt" (by simp),
    C2_config_resolution_amended.2.2 [0, 0, 0] "friction" (by simp [PM_defaults])⟩

/-! ## Claim theorems: sensor views and failure atomicity -/

lemma pm_step_ok (c : PmConf) (u noise : List ℚ) (s : PmState)
    (hu : u.length = c.sysdim) :
    pm_step c u noise s =
      ((apply_force c u noise s).1,
        .ok ⟨⟨2 * c.sysdim, none⟩, ⟨c.sysdim, some (2 * c.sysdim)⟩, ⟨0, none⟩⟩) := by
  unfold pm_step
  have h1 : apply_force c u noise s = ((apply_force c u noise s).1, .ok ()) := by
    have := apply_force_ok c u noise s hu
    exact Prod.ext rfl this
  rw [h1]

lemma pm_step_err (c : PmConf) (u noise : List ℚ) (s : PmState)
    (hu : u.length ≠ c.sysdim) :
    pm_step c u noise s = (s, .error .ShapeMismatch) := by
  unfold pm_step
  rw [apply_force_err c u noise s hu]

lemma arm_step_extero_err (c : ArmConf) (x e1 p2 e2 : List ℝ) (s : ArmState)
    (err : ErrKind)
    (h : arm_compute_sensors_extero c (compute_motor_command c x) e1 = .error err) :
    (simplearm_step c x e1 p2 e2 s).2 = .error err := by
  unfold simplearm_step
  simp [h]

lemma arm_step_state (c : ArmConf) (x e1 p2 e2 : List ℝ) (s : ArmState) :
    (simplearm_step c x e1 p2 e2 s).1 = ⟨compute_motor_command c x⟩ := by
  unfold simplearm_step
  cases h : arm_compute_sensors_extero c (compute_motor_command c x) e1 with
  | error e => simp [h]
  | ok ext =>
    cases h2 : arm_compute_sensors c (compute_motor_command c x) p2 e2 with
    | error e => simp [h, h2]
    | ok allv => simp [h, h2]

/-- C9 counterexample: the point-mass sensor channels are numpy views
into `self.x`, not fresh copies.  On a concrete 1-d configuration
(`dt = 1`, `mass = 1`, `friction = 0`, `sysnoise = 0`) the first step
with force 1 makes the state `[1, 1, 1]`; reading the returned `s_all`
channel there gives `[1, 1, 1]`, but after a second step with the same
force the very same returned channel reads `[3, 2, 1]` — the previously
returned channel vector did not stay unchanged, and it no longer equals
the state at the moment it was returned. -/
theorem C9_view_counterexample :
    (pm_step ⟨1, 1, 1, 0, 0, -1, 1⟩ [1] [0, 0, 0] ⟨[0, 0, 0], 0⟩).2 =
      .ok ⟨⟨2 * 1, none⟩, ⟨1, some (2 * 1)⟩, ⟨0, none⟩⟩ ∧
    readChan (pm_step ⟨1, 1, 1, 0, 0, -1, 1⟩ [1] [0, 0, 0] ⟨[0, 0, 0], 0⟩).1
        ⟨0, none⟩ = [1, 1, 1] ∧
    readChan (pm_step ⟨1, 1, 1, 0, 0, -1, 1⟩ [1] [0, 0, 0]
          (pm_step ⟨1, 1, 1, 0, 0, -1, 1⟩ [1] [0, 0, 0] ⟨[0, 0, 0], 0⟩).1).1
        ⟨0, none⟩ = [3, 2, 1] ∧
    ([(1 : ℚ), 1, 1] : List ℚ) ≠ [3, 2, 1] := by
  refine ⟨rfl, ?_, ?_, by simp⟩
  · norm_num [pm_step, apply_force, pm_p, pm_v, pm_a, pm_pos, pm_vel, readChan]
  · norm_num [pm_step, apply_force, pm_p, pm_v, pm_a, pm_pos, pm_vel, readChan]

/-- C9 (amended): every point-mass sensor channel returned by `step` is a
view (slice descriptor) into the live state vector `self.x`, never a
fresh copy: read immediately after the call, the `all` channel equals the
full internal state vector (the round-trip/no-staleness property) and the
proprio / extero channels equal the acceleration / velocity blocks, but
after any further successful step the previously returned `all` channel
reads the new state vector, so earlier returned values are not preserved. -/
theorem C9_channels_are_views (c : PmConf) (u noise : List ℚ) (s : PmState)
    (hu : u.length = c.sysdim) :
    (pm_step c u noise s).2 =
      .ok ⟨⟨2 * c.sysdim, none⟩, ⟨c.sysdim, some (2 * c.sysdim)⟩, ⟨0, none⟩⟩ ∧
    readChan (pm_step c u noise s).1 ⟨0, none⟩ = (pm_step c u noise s).1.x ∧
    readChan (pm_step c u noise s).1 ⟨2 * c.sysdim, none⟩ =
      pm_acc c (pm_step c u noise s).1.x ∧
    readChan (pm_step c u noise s).1 ⟨c.sysdim, some (2 * c.sysdim)⟩ =
      pm_vel c (pm_step c u noise s).1.x ∧
    (∀ u2 noise2, u2.length = c.sysdim →
      readChan (pm_step c u2 noise2 (pm_step c u noise s).1).1 ⟨0, none⟩ =
        (pm_step c u2 noise2 (pm_step c u noise s).1).1.x) := by
  refine ⟨by rw [pm_step_ok c u noise s hu], by simp [readChan], ?_, ?_,
    fun u2 noise2 hu2 => by simp [readChan]⟩
  · simp [readChan, pm_acc]
  · simp [readChan, pm_vel]
    rw [List.drop_take]
    have h2 : 2 * c.sysdim - c.sysdim = c.sysdim := by omega
    rw [h2]

/-- C9 witness: the view description instantiated on a concrete
configuration, state and input. -/
theorem C9_channels_are_views_witness :
    (pm_step ⟨1, 1, 1, 0, 0, -1, 1⟩ [2] [0, 0, 0] ⟨[5, 6, 7], 0⟩).2 =
      .ok ⟨⟨2 * 1, none⟩, ⟨1, some (2 * 1)⟩, ⟨0, none⟩⟩ ∧
    readChan (pm_step ⟨1, 1, 1, 0, 0, -1, 1⟩ [2] [0, 0, 0] ⟨[5, 6, 7], 0⟩).1
        ⟨0, none⟩ = (pm_step ⟨1, 1, 1, 0, 0, -1, 1⟩ [2] [0, 0, 0] ⟨[5, 6, 7], 0⟩).1.x ∧
    readChan (pm_step ⟨1, 1, 1, 0, 0, -1, 1⟩ [3] [0, 0, 0]
          (pm_step ⟨1, 1, 1, 0, 0, -1, 1⟩ [2] [0, 0, 0] ⟨[5, 6, 7], 0⟩).1).1
        ⟨0, none⟩ =
      (pm_step ⟨1, 1, 1, 0, 0, -1, 1⟩ [3] [0, 0, 0]
          (pm_step ⟨1, 1, 1, 0, 0, -1, 1⟩ [2] [0, 0, 0] ⟨[5, 6, 7], 0⟩).1).1.x := by
  have h := C9_channels_are_views ⟨1, 1, 1, 0, 0, -1, 1⟩ [2] [0, 0, 0]
    ⟨[5, 6, 7], 0⟩ (by decide)
  exact ⟨h.1, h.2.1, h.2.2.2.2 [3] [0, 0, 0] (by decide)⟩

/-- C8 counterexample: a failing `SimplearmSys.step` does not leave the
stored motor command as it was.  On a concrete 2-joint arm, stepping with
a 1-element input commits `self.m = [1/2]` first and only then fails in
`compute_sensors_extero` (forward kinematics dimension mismatch), so the
post-call state differs from the pre-call `m = [0, 0]`. -/
theorem C8_partial_mutation_counterexample :
    (simplearm_step ⟨2, 2, 1, -1, 1, 0, 1⟩ [1/2] [] [] [] ⟨[0, 0]⟩).2 =
      .error .DimensionMismatch ∧
    (simplearm_step ⟨2, 2, 1, -1, 1, 0, 1⟩ [1/2] [] [] [] ⟨[0, 0]⟩).1.m = [1/2] ∧
    (simplearm_step ⟨2, 2, 1, -1, 1, 0, 1⟩ [1/2] [] [] [] ⟨[0, 0]⟩).1.m ≠ [0, 0] := by
  have hm : compute_motor_command ⟨2, 2, 1, -1, 1, 0, 1⟩ [1/2] = [1/2] := by
    norm_num [compute_motor_command, clip, max_def, min_def]
  have hext : arm_compute_sensors_extero ⟨2, 2, 1, -1, 1, 0, 1⟩ [1/2] [] =
      .error .DimensionMismatch := by
    unfold arm_compute_sensors_extero forward joint_positions
    simp [armLengths, compute_lengths]
  refine ⟨arm_step_extero_err _ _ _ _ _ _ _ (by rw [hm]; exact hext), ?_, ?_⟩
  · rw [arm_step_state, hm]
  · rw [arm_step_state, hm]
    simp

/-- C8 (amended): a failing `PointmassSys.step` fails before any state
mutation (the reshape precedes every write), leaving state vector and
step counter untouched; but `SimplearmSys.step` commits the new motor
command `self.m = compute_motor_command(x)` before computing the sensor
channels, so its post-call state carries the new command whether the
sensor computation succeeds or fails — a failing arm step does not leave
the stored motor command as it was. -/
theorem C8_failure_atomicity_amended :
    (∀ (c : PmConf) (u noise : List ℚ) (s : PmState) (e : ErrKind),
      (pm_step c u noise s).2 = .error e → (pm_step c u noise s).1 = s) ∧
    (∀ (c : ArmConf) (x e1 p2 e2 : List ℝ) (s : ArmState),
      (simplearm_step c x e1 p2 e2 s).1.m = compute_motor_command c x) := by
  constructor
  · intro c u noise s e herr
    by_cases hu : u.length = c.sysdim
    · rw [pm_step_ok c u noise s hu] at herr
      simp at herr
    · rw [pm_step_err c u noise s hu]
  · intro c x e1 p2 e2 s
    rw [arm_step_state c x e1 p2 e2 s]

/-- C8 witness: a shape-mismatched point-mass step leaves the state
exactly as it was, and a concrete arm step stores the clipped command. -/
theorem C8_failure_atomicity_amended_witness :
    (pm_step ⟨1, 1, 1, 0, 0, -1, 1⟩ [] [0, 0, 0] ⟨[4, 5, 6], 7⟩).1 = ⟨[4, 5, 6], 7⟩ ∧
    (simplearm_step ⟨2, 2, 1, -1, 1, 0, 1⟩ [3, 3] [] [] [] ⟨[0, 0]⟩).1.m =
      compute_motor_command ⟨2, 2, 1, -1, 1, 0, 1⟩ [3, 3] :=
  ⟨C8_failure_atomicity_amended.1 ⟨1, 1, 1, 0, 0, -1, 1⟩ [] [0, 0, 0] ⟨[4, 5, 6], 7⟩
      .ShapeMismatch rfl,
    C8_failure_atomicity_amended.2 ⟨2, 2, 1, -1, 1, 0, 1⟩ [3, 3] [] [] [] ⟨[0, 0]⟩⟩

/-! ## Claim theorems: forward kinematics -/

lemma cumsum_length (l : List ℝ) : (cumsum l).length = l.length := by
  induction l with
  | nil => rfl
  | cons a t ih => simp [cumsum, ih]

lemma cumsum_getD (l : List ℝ) (i : ℕ) (hi : i < l.length) :
    (cumsum l).getD i 0 = ∑ j in Finset.range (i + 1), l.getD j 0 := by
  induction l generalizing i with
  | nil => simp at hi
  | cons a t ih =>
    cases i with
    | zero => simp [cumsum, Finset.sum_range_one]
    | succ n =>
      have hn : n < t.length := by simpa using hi
      have h1 : (cumsum (a :: t)).getD (n + 1) 0 =
          ((cumsum t).map (fun s => a + s)).getD n 0 := rfl
      rw [h1, getD_map (fun s => a + s) 0 0 _ n (by rw [cumsum_length]; exact hn),
        ih n hn, Finset.sum_range_succ' (fun j => (a :: t).getD j 0) (n + 1)]
      have hsucc : ∀ j, (a :: t).getD (j + 1) 0 = t.getD j 0 := fun j => rfl
      simp only [hsucc, List.getD_cons_zero]
      ring

lemma jp_rad_eq (angles lengths : List ℝ) (h : angles.length = lengths.length) :
    joint_positions angles lengths "rad" = .ok (jp_core angles lengths) := by
  simp [joint_positions, h]

lemma jpGet_eq (angles lengths : List ℝ) (h : angles.length = lengths.length) :
    jpGet angles lengths = jp_core angles lengths := by
  simp [jpGet, jp_rad_eq angles lengths h]

lemma jp_core_fst_len (a lengths : List ℝ) :
    (jp_core a lengths).1.length = min a.length lengths.length := by
  simp [jp_core, cumsum_length]

lemma jp_core_snd_len (a lengths : List ℝ) :
    (jp_core a lengths).2.length = min a.length lengths.length := by
  simp [jp_core, cumsum_length]

lemma jp_core_fst_getD (a lengths : List ℝ) (i : ℕ) (hi : i < a.length)
    (hl : i < lengths.length) :
    (jp_core a lengths).1.getD i 0 =
      ∑ j in Finset.range (i + 1),
        Real.cos (∑ k in Finset.range (j + 1), a.getD k 0) * lengths.getD j 0 := by
  have hz : (List.zipWith (fun t l => Real.cos t * l) (cumsum a) lengths).length =
      min a.length lengths.length := by simp [cumsum_length]
  have h1 : (jp_core a lengths).1 =
      cumsum (List.zipWith (fun t l => Real.cos t * l) (cumsum a) lengths) := rfl
  rw [h1, cumsum_getD _ i (by rw [hz]; omega)]
  refine Finset.sum_congr rfl fun j hj => ?_
  have hji : j ≤ i := by simpa [Nat.lt_succ_iff] using Finset.mem_range.mp hj
  rw [getD_zipWith _ _ _ _ _ (by rw [cumsum_length]; omega) (by omega),
    cumsum_getD a j (by omega)]

lemma jp_core_snd_getD (a lengths : List ℝ) (i : ℕ) (hi : i < a.length)
    (hl : i < lengths.length) :
    (jp_core a lengths).2.getD i 0 =
      ∑ j in Finset.range (i + 1),
        Real.sin (∑ k in Finset.range (j + 1), a.getD k 0) * lengths.getD j 0 := by
  have hz : (List.zipWith (fun t l => Real.sin t * l) (cumsum a) lengths).length =
      min a.length lengths.length := by simp [cumsum_length]
  have h1 : (jp_core a lengths).2 =
      cumsum (List.zipWith (fun t l => Real.sin t * l) (cumsum a) lengths) := rfl
  rw [h1, cumsum_getD _ i (by rw [hz]; omega)]
  refine Finset.sum_congr rfl fun j hj => ?_
  have hji : j ≤ i := by simpa [Nat.lt_succ_iff] using Finset.mem_range.mp hj
  rw [getD_zipWith _ _ _ _ _ (by rw [cumsum_length]; omega) (by omega),
    cumsum_getD a j (by omega)]

lemma getLast?_eq_getD {α : Type} (l : List α) (d : α) (h : l ≠ []) :
    l.getLast? = some (l.getD (l.length - 1) d) := by
  have hpos : 0 < l.length := List.length_pos.mpr h
  have hlen : l.length - 1 < l.length := Nat.sub_lt hpos one_pos
  rw [List.getLast?_eq_getElem?, List.getD_eq_getElem l d hlen,
    List.getElem?_eq_getElem hlen]

lemma jpGet_fst_len (angles lengths : List ℝ) (h : angles.length = lengths.length) :
    (jpGet angles lengths).1.length = angles.length := by
  rw [jpGet_eq angles lengths h, jp_core_fst_len, h, min_self]

lemma jpGet_snd_len (angles lengths : List ℝ) (h : angles.length = lengths.length) :
    (jpGet angles lengths).2.length = angles.length := by
  rw [jpGet_eq angles lengths h, jp_core_snd_len, h, min_self]

lemma forward_eq_last (angles lengths : List ℝ) (h : angles.length = lengths.length)
    (hne : angles ≠ []) :
    forward angles lengths =
      .ok ((jpGet angles lengths).1.getD (angles.length - 1) 0,
        (jpGet angles lengths).2.getD (angles.length - 1) 0) := by
  rcases hjp : jpGet angles lengths with ⟨xs, ys⟩
  have hx : xs.length = angles.length := by
    have := jpGet_fst_len angles lengths h
    rw [hjp] at this
    simpa using this
  have hy : ys.length = angles.length := by
    have := jpGet_snd_len angles lengths h
    rw [hjp] at this
    simpa using this
  have hxne : xs ≠ [] := by
    intro hc
    rw [hc] at hx
    exact hne (List.eq_nil_of_length_eq_zero hx.symm)
  have hyne : ys ≠ [] := by
    intro hc
    rw [hc] at hy
    exact hne (List.eq_nil_of_length_eq_zero hy.symm)
  have hok : joint_positions angles lengths "rad" = .ok (xs, ys) := by
    rw [jp_rad_eq angles lengths h, ← jpGet_eq angles lengths h, hjp]
  unfold forward
  rw [hok]
  simp only [getLast?_eq_getD xs 0 hxne, getLast?_eq_getD ys 0 hyne, hx, hy]

/-- C6: `joint_positions` fails with DimensionMismatch exactly when the
angle and length lists differ in length; with matching lengths, unit
`std` behaves as unit `rad` on the angles each multiplied by π (the
`rad` convention using the angles as-is), and any unit other than these
two fails with UnsupportedUnit. -/
theorem C6_joint_positions_errors :
    (∀ (angles lengths : List ℝ) (unit : String),
      joint_positions angles lengths unit = .error .DimensionMismatch ↔
        angles.length ≠ lengths.length) ∧
    (∀ angles lengths : List ℝ,
      joint_positions angles lengths "std" =
        joint_positions (angles.map (fun t => Real.pi * t)) lengths "rad") ∧
    (∀ (angles lengths : List ℝ) (unit : String),
      angles.length = lengths.length → unit ≠ "rad" → unit ≠ "std" →
        joint_positions angles lengths unit = .error .UnsupportedUnit) := by
  refine ⟨fun angles lengths unit => ?_, fun angles lengths => ?_,
    fun angles lengths unit h h1 h2 => ?_⟩
  · by_cases hlen : angles.length ≠ lengths.length
    · simp [joint_positions, hlen]
    · by_cases h2 : unit = "rad"
      · simp [joint_positions, hlen, h2]
      · by_cases h3 : unit = "std"
        · simp [joint_positions, hlen, h2, h3]
        · simp [joint_positions, hlen, h2, h3]
  · by_cases hlen : angles.length = lengths.length
    · rw [jp_rad_eq _ _ (by simpa using hlen)]
      simp [joint_positions, hlen]
    · have hlen2 : ¬(angles.map (fun t => Real.pi * t)).length = lengths.length := by
        simpa using hlen
      simp [joint_positions, hlen, hlen2]
  · simp [joint_positions, h, h1, h2]

/-- C6 witness: a mismatched pair fails with DimensionMismatch, `std`
agrees with `rad` after scaling by π, and an unknown unit fails with
UnsupportedUnit. -/
theorem C6_joint_positions_errors_witness :
    joint_positions [0] ([] : List ℝ) "rad" = .error .DimensionMismatch ∧
    joint_positions [0] [1] "std" =
      joint_positions (([0] : List ℝ).map (fun t => Real.pi * t)) [1] "rad" ∧
    joint_positions [0] ([1] : List ℝ) "foo" = .error .UnsupportedUnit :=
  ⟨(C6_joint_positions_errors.1 [0] [] "rad").mpr (by simp),
    C6_joint_positions_errors.2.1 [0] [1],
    C6_joint_positions_errors.2.2 [0] [1] "foo" (by simp) (by decide) (by decide)⟩

/-- C7: for equal-length inputs, `joint_positions` in radians succeeds
and returns, per index `i`, the cumulative sums
`x_i = Σ_j cos(Σ_k angle_k) * length_j` and
`y_i = Σ_j sin(Σ_k angle_k) * length_j` over the running joint angle;
the returned sequences have exactly one entry per joint (the fixed base
joint at the origin is not included); `forward` returns the last element
of each sequence; and concretely `joint_positions [0,0] [1,1]` gives
joints (1,0) and (2,0), while `forward [π/2] [1]` gives (0,1) exactly. -/
theorem C7_joint_positions_values :
    (∀ angles lengths : List ℝ, angles.length = lengths.length →
      joint_positions angles lengths "rad" = .ok (jpGet angles lengths)) ∧
    (∀ angles lengths : List ℝ, angles.length = lengths.length →
      (jpGet angles lengths).1.length = angles.length ∧
      (jpGet angles lengths).2.length = angles.length) ∧
    (∀ angles lengths : List ℝ, angles.length = lengths.length →
      ∀ i, i < angles.length →
        (jpGet angles lengths).1.getD i 0 =
          ∑ j in Finset.range (i + 1),
            Real.cos (∑ k in Finset.range (j + 1), angles.getD k 0) *
              lengths.getD j 0 ∧
        (jpGet angles lengths).2.getD i 0 =
          ∑ j in Finset.range (i + 1),
            Real.sin (∑ k in Finset.range (j + 1), angles.getD k 0) *
              lengths.getD j 0) ∧
    (∀ angles lengths : List ℝ, angles.length = lengths.length → angles ≠ [] →
      forward angles lengths =
        .ok ((jpGet angles lengths).1.getD (angles.length - 1) 0,
          (jpGet angles lengths).2.getD (angles.length - 1) 0)) ∧
    jpGet [0, 0] [1, 1] = ([1, 2], [0, 0]) ∧
    forward [Real.pi / 2] [1] = .ok (0, 1) := by
  refine ⟨fun angles lengths h => by
      rw [jp_rad_eq angles lengths h, jpGet_eq angles lengths h],
    fun angles lengths h =>
      ⟨jpGet_fst_len angles lengths h, jpGet_snd_len angles lengths h⟩,
    fun angles lengths h i hi => ?_,
    fun angles lengths h hne => forward_eq_last angles lengths h hne, ?_, ?_⟩
  · rw [jpGet_eq angles lengths h]
    exact ⟨jp_core_fst_getD angles lengths i hi (h ▸ hi),
      jp_core_snd_getD angles lengths i hi (h ▸ hi)⟩
  · norm_num [jpGet, joint_positions, jp_core, cumsum]
  · norm_num [forward, joint_positions, jp_core, cumsum]

/-- C7 witness: the index formula and forward-last behavior instantiated
on a concrete one-joint chain. -/
theorem C7_joint_positions_values_witness :
    joint_positions [0] ([1] : List ℝ) "rad" = .ok (jpGet [0] [1]) ∧
    (jpGet ([0] : List ℝ) [1]).1.getD 0 0 =
      ∑ j in Finset.range (0 + 1),
        Real.cos (∑ k in Finset.range (j + 1), ([0] : List ℝ).getD k 0) *
          ([1] : List ℝ).getD j 0 ∧
    forward [0] ([1] : List ℝ) =
      .ok ((jpGet ([0] : List ℝ) [1]).1.getD (([0] : List ℝ).length - 1) 0,
        (jpGet ([0] : List ℝ) [1]).2.getD (([0] : List ℝ).length - 1) 0) :=
  ⟨C7_joint_positions_values.1 [0] [1] rfl,
    (C7_joint_positions_values.2.2.1 [0] [1] rfl 0 (by simp)).1,
    C7_joint_positions_values.2.2.2.1 [0] [1] rfl (by simp)⟩

/-- C10: on empty inputs `joint_positions` returns two empty coordinate
sequences while `forward` fails (IndexError from indexing `[-1]` into an
empty array); for every non-empty equal-length input, `forward` returns a
defined end-effector pair. -/
theorem C10_forward_empty_chain :
    joint_positions ([] : List ℝ) [] "rad" = .ok ([], []) ∧
    forward ([] : List ℝ) [] = .error .IndexError ∧
    (∀ angles lengths : List ℝ, angles.length = lengths.length → angles ≠ [] →
      (forward angles lengths).toOption.isSome = true) := by
  refine ⟨by simp [joint_positions, jp_core, cumsum], by
      simp [forward, joint_positions, jp_core, cumsum],
    fun angles lengths h hne => ?_⟩
  rw [forward_eq_last angles lengths h hne]
  rfl

/-- C10 witness: a one-joint chain has a defined end-effector. -/
theorem C10_forward_empty_chain_witness :
    (forward [0] ([1] : List ℝ)).toOption.isSome = true :=
  C10_forward_empty_chain.2.2 [0] [1] rfl (by simp)

/-! ## Claim theorems: simple arm -/

lemma cmc_len (c : ArmConf) (x : List ℝ) :
    (compute_motor_command c x).length = x.length := by
  simp [compute_motor_command]

lemma armLengths_len (c : ArmConf) : (armLengths c).length = c.dim_s_motor := by
  simp [armLengths, compute_lengths]

lemma fwdGet_eq (angles lengths : List ℝ) (q : ℝ × ℝ)
    (h : forward angles lengths = .ok q) : fwdGet angles lengths = q := by
  simp [fwdGet, h]

lemma fwd_ok (m L : List ℝ) (hlen : m.length = L.length) (hne : m ≠ []) :
    forward m L = .ok (fwdGet m L) := by
  rw [fwdGet_eq m L _ (forward_eq_last m L hlen hne)]
  exact forward_eq_last m L hlen hne

lemma arm_extero_ok (c : ArmConf) (m : List ℝ) (a1 a2 : ℝ)
    (hlen : m.length = c.dim_s_motor) (hne : m ≠ []) (hd : c.dim_s_extero = 2) :
    arm_compute_sensors_extero c m [a1, a2] =
      .ok [(fwdGet m (armLengths c)).1 + c.sysnoise * a1,
        (fwdGet m (armLengths c)).2 + c.sysnoise * a2] := by
  have hfwd : forward m (armLengths c) = .ok (fwdGet m (armLengths c)) :=
    fwd_ok m (armLengths c) (by rw [hlen, armLengths_len]) hne
  unfold arm_compute_sensors_extero
  rw [hfwd]
  simp [hd]

lemma arm_sensors_ok (c : ArmConf) (m p2 : List ℝ) (b1 b2 : ℝ)
    (hlen : m.length = c.dim_s_motor) (hne : m ≠ []) (hd : c.dim_s_extero = 2) :
    arm_compute_sensors c m p2 [b1, b2] =
      .ok (arm_compute_sensors_proprio c m p2 ++
        [(fwdGet m (armLengths c)).1 + c.sysnoise * b1,
          (fwdGet m (armLengths c)).2 + c.sysnoise * b2]) := by
  unfold arm_compute_sensors
  rw [arm_extero_ok c m b1 b2 hlen hne hd]

lemma arm_step_ok (c : ArmConf) (x : List ℝ) (a1 a2 : ℝ) (p2 : List ℝ)
    (b1 b2 : ℝ) (s : ArmState) (hx : x.length = c.dim_s_motor)
    (hm : 0 < c.dim_s_motor) (hd : c.dim_s_extero = 2) :
    simplearm_step c x [a1, a2] p2 [b1, b2] s =
      (⟨compute_motor_command c x⟩,
        .ok ⟨compute_motor_command c x,
          [(fwdGet (compute_motor_command c x) (armLengths c)).1 + c.sysnoise * a1,
            (fwdGet (compute_motor_command c x) (armLengths c)).2 + c.sysnoise * a2],
          arm_compute_sensors_proprio c (compute_motor_command c x) p2 ++
            [(fwdGet (compute_motor_command c x) (armLengths c)).1 + c.sysnoise * b1,
              (fwdGet (compute_motor_command c x) (armLengths c)).2 +
                c.sysnoise * b2]⟩) := by
  have hlen : (compute_motor_command c x).length = c.dim_s_motor := by
    rw [cmc_len, hx]
  have hne : compute_motor_command c x ≠ [] :=
    List.length_pos.mp (by rw [hlen]; exact hm)
  unfold simplearm_step
  simp only [arm_extero_ok c _ a1 a2 hlen hne hd,
    arm_sensors_ok c _ p2 b1 b2 hlen hne hd]

lemma zipWith_add_zero_mul (m p : List ℝ) (hp : m.length ≤ p.length) :
    List.zipWith (fun mi ni => mi + (0 : ℝ) * ni) m p = m := by
  induction m generalizing p with
  | nil => rfl
  | cons a t ih =>
    cases p with
    | nil => simp at hp
    | cons b q =>
      simp only [List.zipWith_cons_cons]
      rw [ih q (by simpa using hp)]
      norm_num

/-- C4 counterexample: the `all` channel is not the concatenation of the
returned proprioceptive and exteroceptive channels.  On a one-joint arm
with `sysnoise = 1`, input 0 and noise draws `e1 = (0,0)` for the
returned extero channel, `p2 = (1)` and `e2 = (0,0)` for the two fresh
draws made while building `s_all`, the step succeeds with
`s_all = [1, 1, 0]` but `s_proprio ++ s_extero = [0, 1, 0]`: the `all`
channel re-draws noise (and adds noise to its proprio part, which the
returned proprio channel lacks). -/
theorem C4_all_channel_counterexample :
    (getOut (simplearm_step ⟨1, 2, 1, -1, 1, 1, 1⟩ [0] [0, 0] [1] [0, 0]
        ⟨[0]⟩).2).s_all ≠
      (getOut (simplearm_step ⟨1, 2, 1, -1, 1, 1, 1⟩ [0] [0, 0] [1] [0, 0]
          ⟨[0]⟩).2).s_proprio ++
        (getOut (simplearm_step ⟨1, 2, 1, -1, 1, 1, 1⟩ [0] [0, 0] [1] [0, 0]
            ⟨[0]⟩).2).s_extero := by
  have hm0 : compute_motor_command ⟨1, 2, 1, -1, 1, 1, 1⟩ [0] = [0] := by
    norm_num [compute_motor_command, clip, max_def, min_def]
  have hL : armLengths ⟨1, 2, 1, -1, 1, 1, 1⟩ = [1] := by
    norm_num [armLengths, compute_lengths, lrec, List.range_succ]
  have hf : fwdGet [0] ([1] : List ℝ) = (1, 0) := by
    refine fwdGet_eq _ _ _ ?_
    norm_num [forward, joint_positions, jp_core, cumsum]
  have hstep := arm_step_ok ⟨1, 2, 1, -1, 1, 1, 1⟩ [0] 0 0 [1] 0 0 ⟨[0]⟩ rfl
    (by norm_num) rfl
  rw [hstep]
  simp only [getOut, hm0, hL, hf]
  norm_num [arm_compute_sensors_proprio]

/-- C4 (amended): a successful arm step returns `s_proprio` equal to the
motor command stored by that call (the clipped input, with no noise),
`s_extero` equal to the forward-kinematics end-effector position plus
`sysnoise`-scaled noise (draw `(a1, a2)`), and `s_all` equal to the
concatenation of a freshly noise-corrupted copy of the motor command
(draw `p2`) with a freshly recomputed noisy end-effector position (draw
`(b1, b2)`); `s_all` equals the concatenation of the returned channels
when `sysnoise = 0`, but not in general since its two blocks use fresh
noise draws. -/
theorem C4_step_channels_amended (c : ArmConf) (x p2 : List ℝ) (a1 a2 b1 b2 : ℝ)
    (s : ArmState) (hx : x.length = c.dim_s_motor) (hm : 0 < c.dim_s_motor)
    (hd : c.dim_s_extero = 2) (hp2 : p2.length = c.dim_s_motor) :
    (simplearm_step c x [a1, a2] p2 [b1, b2] s).2 =
      .ok (getOut (simplearm_step c x [a1, a2] p2 [b1, b2] s).2) ∧
    (getOut (simplearm_step c x [a1, a2] p2 [b1, b2] s).2).s_proprio =
      (simplearm_step c x [a1, a2] p2 [b1, b2] s).1.m ∧
    (getOut (simplearm_step c x [a1, a2] p2 [b1, b2] s).2).s_proprio =
      compute_motor_command c x ∧
    (getOut (simplearm_step c x [a1, a2] p2 [b1, b2] s).2).s_extero =
      [(fwdGet (compute_motor_command c x) (armLengths c)).1 + c.sysnoise * a1,
        (fwdGet (compute_motor_command c x) (armLengths c)).2 + c.sysnoise * a2] ∧
    (getOut (simplearm_step c x [a1, a2] p2 [b1, b2] s).2).s_all =
      arm_compute_sensors_proprio c (compute_motor_command c x) p2 ++
        [(fwdGet (compute_motor_command c x) (armLengths c)).1 + c.sysnoise * b1,
          (fwdGet (compute_motor_command c x) (armLengths c)).2 +
            c.sysnoise * b2] ∧
    (c.sysnoise = 0 →
      (getOut (simplearm_step c x [a1, a2] p2 [b1, b2] s).2).s_all =
        (getOut (simplearm_step c x [a1, a2] p2 [b1, b2] s).2).s_proprio ++
          (getOut (simplearm_step c x [a1, a2] p2 [b1, b2] s).2).s_extero) := by
  have hstep := arm_step_ok c x a1 a2 p2 b1 b2 s hx hm hd
  rw [hstep]
  refine ⟨rfl, rfl, rfl, rfl, rfl, fun h0 => ?_⟩
  simp only [getOut]
  unfold arm_compute_sensors_proprio
  rw [h0, zipWith_add_zero_mul _ _ (by rw [cmc_len, hx, hp2])]
  simp

/-- C4 witness: the amended channel description instantiated on a
concrete noise-free one-joint arm. -/
theorem C4_step_channels_amended_witness :
    (simplearm_step ⟨1, 2, 1, -1, 1, 0, 1⟩ [5] [0, 0] [0] [0, 0] ⟨[0]⟩).2 =
      .ok (getOut (simplearm_step ⟨1, 2, 1, -1, 1, 0, 1⟩ [5] [0, 0] [0] [0, 0]
        ⟨[0]⟩).2) ∧
    (getOut (simplearm_step ⟨1, 2, 1, -1, 1, 0, 1⟩ [5] [0, 0] [0] [0, 0]
        ⟨[0]⟩).2).s_proprio = compute_motor_command ⟨1, 2, 1, -1, 1, 0, 1⟩ [5] ∧
    (getOut (simplearm_step ⟨1, 2, 1, -1, 1, 0, 1⟩ [5] [0, 0] [0] [0, 0]
        ⟨[0]⟩).2).s_all =
      (getOut (simplearm_step ⟨1, 2, 1, -1, 1, 0, 1⟩ [5] [0, 0] [0] [0, 0]
          ⟨[0]⟩).2).s_proprio ++
        (getOut (simplearm_step ⟨1, 2, 1, -1, 1, 0, 1⟩ [5] [0, 0] [0] [0, 0]
            ⟨[0]⟩).2).s_extero := by
  have h := C4_step_channels_amended ⟨1, 2, 1, -1, 1, 0, 1⟩ [5] [0] 0 0 0 0 ⟨[0]⟩
    rfl (by norm_num) rfl rfl
  exact ⟨h.1, h.2.2.1, h.2.2.2.2.2 rfl⟩

/-- C5: the motor command produced by `compute_motor_command` lies
elementwise within `[m_mins, m_maxs]` for every input (including
out-of-range values), and therefore the stored command after each step of
any non-empty sequence of steps satisfies the same elementwise bounds;
the bounds hold whenever the configured interval is non-degenerate
(`m_mins ≤ m_maxs`). -/
theorem C5_motor_command_bounds (c : ArmConf) (hb : c.m_mins ≤ c.m_maxs) :
    (∀ x : List ℝ, ∀ y ∈ compute_motor_command c x,
      c.m_mins ≤ y ∧ y ≤ c.m_maxs) ∧
    (∀ (s0 : ArmState) (steps : List (List ℝ × List ℝ × List ℝ × List ℝ)),
      steps ≠ [] → ∀ y ∈ (arm_iter c s0 steps).m,
        c.m_mins ≤ y ∧ y ≤ c.m_maxs) := by
  have hcore : ∀ x : List ℝ, ∀ y ∈ compute_motor_command c x,
      c.m_mins ≤ y ∧ y ≤ c.m_maxs := by
    intro x y hy
    unfold compute_motor_command at hy
    rcases List.mem_map.mp hy with ⟨z, _, hz⟩
    refine ⟨?_, ?_⟩
    · rw [← hz]
      exact le_min (le_max_right z c.m_mins) hb
    · rw [← hz]
      exact min_le_right _ _
  refine ⟨hcore, fun s0 steps hne y hy => ?_⟩
  rcases List.eq_nil_or_concat steps with h | ⟨L, b, hLb⟩
  · exact absurd h hne
  · rw [hLb] at hy
    rw [List.concat_eq_append] at hy
    unfold arm_iter at hy
    rw [List.foldl_concat] at hy
    rw [arm_step_state] at hy
    exact hcore b.1 y hy

/-- C5 witness: a far out-of-range input is clipped into the configured
interval, both directly and across a step sequence. -/
theorem C5_motor_command_bounds_witness :
    ((-1 : ℝ) ≤ (compute_motor_command ⟨1, 2, 1, -1, 1, 0, 1⟩ [5]).getD 0 0 ∧
      (compute_motor_command ⟨1, 2, 1, -1, 1, 0, 1⟩ [5]).getD 0 0 ≤ 1) ∧
    ((-1 : ℝ) ≤
        (arm_iter ⟨1, 2, 1, -1, 1, 0, 1⟩ ⟨[0]⟩ [([5], [], [], [])]).m.getD 0 0 ∧
      (arm_iter ⟨1, 2, 1, -1, 1, 0, 1⟩ ⟨[0]⟩ [([5], [], [], [])]).m.getD 0 0 ≤ 1) := by
  have h := C5_motor_command_bounds ⟨1, 2, 1, -1, 1, 0, 1⟩ (by norm_num)
  have hmem : (compute_motor_command ⟨1, 2, 1, -1, 1, 0, 1⟩ [5]).getD 0 0 ∈
      compute_motor_command ⟨1, 2, 1, -1, 1, 0, 1⟩ [5] := by
    have hl : (compute_motor_command ⟨1, 2, 1, -1, 1, 0, 1⟩ [5]).length = 1 :=
      cmc_len _ _
    rw [List.getD_eq_getElem _ 0 (by rw [hl]; omega)]
    exact List.getElem_mem _
  have hmem2 : (arm_iter ⟨1, 2, 1, -1, 1, 0, 1⟩ ⟨[0]⟩ [([5], [], [], [])]).m.getD 0 0 ∈
      (arm_iter ⟨1, 2, 1, -1, 1, 0, 1⟩ ⟨[0]⟩ [([5], [], [], [])]).m := by
    have hl : (arm_iter ⟨1, 2, 1, -1, 1, 0, 1⟩ ⟨[0]⟩ [([5], [], [], [])]).m.length = 1 := by
      show ((simplearm_step ⟨1, 2, 1, -1, 1, 0, 1⟩ [5] [] [] [] ⟨[0]⟩).1).m.length = 1
      rw [arm_step_state]
      exact cmc_len _ _
    rw [List.getD_eq_getElem _ 0 (by rw [hl]; omega)]
    exact List.getElem_mem _
  exact ⟨h.1 [5] _ hmem, h.2 ⟨[0]⟩ [([5], [], [], [])] (by simp) _ hmem2⟩

end SmpSys
